import Mathlib

/-!
Verification development for the Tracking & Model Registry engine described
in `spec.md`.  The repository snapshot ships only callers of the engine (a
tutorial notebook and CI glue), so every definition below is a shallow
embedding reconstructed from the specification text; each definition's doc
comment records the spec passage it models.  Numeric payloads (metric values,
timestamps) are modelled as integers: none of the verified claims depends on
real-number arithmetic, only on equality and ordering of the fields.
-/

namespace Mlflow

/-- Modelled from the spec: the error taxonomy of section 7
(`NotFound`, `AlreadyExists`, `Conflict`, `InvalidState`, `InvalidArgument`,
`SignatureMismatch`, `UnsupportedFlavor`, `UnsupportedScheme`,
`BackendUnavailable`, `PermissionDenied`). -/
inductive MlErr where
  | notFound
  | alreadyExists
  | conflict
  | invalidState
  | invalidArgument
  | signatureMismatch
  | unsupportedFlavor
  | unsupportedScheme
  | backendUnavailable
  | permissionDenied
deriving DecidableEq, Repr

/-- Modelled from the spec: stages of a ModelVersion
(`None -> Staging -> Production`, with `Archived` reachable from any). -/
inductive Stage where
  | none
  | staging
  | production
  | archived
deriving DecidableEq, Repr

/-- Modelled from the spec: ModelVersion status (pending/ready/failed). -/
inductive VersionStatus where
  | pending
  | ready
  | failed
deriving DecidableEq, Repr

/-- Modelled from the spec: a ModelVersion record — (registered model name is
kept on the enclosing `RegisteredModel`), version number, source artifact URI,
current stage, status. -/
structure ModelVersion where
  version : Nat
  stage : Stage
  status : VersionStatus
  sourceUri : String
deriving DecidableEq, Repr

/-- Modelled from the spec: a RegisteredModel — unique name and its set of
ModelVersions (kept in creation order).  `lastAllocated` is the allocation
counter backing "version numbers are strictly increasing per registered-model
name starting at 1, with no reuse even after deletion": a deleted or FAILED
version's number stays consumed because the counter never decreases. -/
structure RegisteredModel where
  name : String
  lastAllocated : Nat
  versions : List ModelVersion
deriving DecidableEq, Repr

/-- Version numbers of the currently stored version records, in creation
order. -/
def versionNumbers (m : RegisteredModel) : List Nat :=
  m.versions.map (fun r => r.version)

/-- Modelled from the spec: the next unused version number of a registered
model ("firstFree"). -/
def firstFree (m : RegisteredModel) : Nat :=
  m.lastAllocated + 1

/-- The fresh version record persisted by `createModelVersion`
(status starts PENDING, stage starts None). -/
def newVersionRecord (v : Nat) (uri : String) : ModelVersion :=
  ⟨v, Stage.none, VersionStatus.pending, uri⟩

/-- Modelled from the spec: `createModelVersion(modelName, sourceUri)`
allocates the next version number atomically and persists the version record
in the same step ("the allocation and the persisted version record are
linearized as a single unit").  The returned pair is the post-state together
with the allocated number; concurrent calls on the same name serialize, so a
group of N concurrent calls is any N-fold sequential composition of this
single atomic step. -/
def createModelVersion (m : RegisteredModel) (uri : String) :
    RegisteredModel × Nat :=
  let v := m.lastAllocated + 1
  ({ m with
      lastAllocated := v
      versions := m.versions ++ [newVersionRecord v uri] }, v)

/-- N serialized `createModelVersion` calls on the same registered model;
returns the final state and the list of allocated numbers in call order. -/
def createMany (m : RegisteredModel) (uri : String) : Nat → RegisteredModel × List Nat
  | 0 => (m, [])
  | n + 1 =>
    let s := createModelVersion m uri
    let t := createMany s.1 uri n
    (t.1, s.2 :: t.2)

theorem createMany_eq (uri : String) :
    ∀ (n : Nat) (m : RegisteredModel),
      createMany m uri n =
        ({ m with
            lastAllocated := m.lastAllocated + n
            versions := m.versions ++
              (List.range' (firstFree m) n).map (fun v => newVersionRecord v uri) },
         List.range' (firstFree m) n)
  | 0, m => by simp [createMany, List.range']
  | n + 1, m => by
    have ih := createMany_eq uri n (createModelVersion m uri).1
    simp only [createMany]
    rw [ih]
    simp only [createModelVersion, firstFree, List.range'_succ, List.map_cons,
      Prod.mk.injEq, RegisteredModel.mk.injEq]
    exact ⟨⟨trivial, by omega, by simp⟩, trivial⟩

/-- **C1.** For every N serialized `createModelVersion` calls on the same
registered-model name, the returned version numbers are exactly
`firstFree, firstFree+1, ..., firstFree+N-1` in call order (hence no two
calls receive the same number and no number in the range is skipped), and
each returned number's version record is persisted in the final state by the
very step that allocated it: the final stored record list extends the old one
by exactly one fresh PENDING record per returned number. -/
theorem createModelVersion_concurrent_allocation
    (m : RegisteredModel) (uri : String) (n : Nat) :
    (createMany m uri n).2 = List.range' (firstFree m) n ∧
    (createMany m uri n).2.Nodup ∧
    (createMany m uri n).1.versions = m.versions ++
      ((createMany m uri n).2.map (fun v => newVersionRecord v uri)) ∧
    (createMany m uri n).1.lastAllocated = m.lastAllocated + n ∧
    (∀ v ∈ (createMany m uri n).2,
      newVersionRecord v uri ∈ (createMany m uri n).1.versions) := by
  have h := createMany_eq uri n m
  refine ⟨by rw [h], ?_, ?_, by rw [h], ?_⟩
  · rw [h]; exact List.nodup_range' _ _
  · rw [h]
  · intro v hv
    rw [h] at hv ⊢
    simp only [List.mem_append, List.mem_map]
    exact Or.inr ⟨v, hv, rfl⟩

/-- Modelled from the spec: the per-record effect of
`transitionStage(modelName, version, targetStage, archiveExisting)` — the
addressed version takes the target stage; when `archiveExisting` is set and
the target is Staging or Production, every other version currently in that
stage moves to Archived; all other records are untouched. -/
def applyTransition (v : Nat) (target : Stage) (archiveExisting : Bool)
    (r : ModelVersion) : ModelVersion :=
  if r.version = v then { r with stage := target }
  else if archiveExisting = true ∧
      (target = Stage.staging ∨ target = Stage.production) ∧
      r.stage = target then
    { r with stage := Stage.archived }
  else r

/-- Modelled from the spec: `transitionStage` — fails `NotFound` for an
unknown (model, version); otherwise rewrites the whole version list in one
atomic step (the archive side-effects and the promotion commit together; the
spec's `InvalidArgument` branch for a malformed stage name is unreachable
here because `Stage` is an enumeration of exactly the four legal values).
Concurrent transitions on the same version serialize, so each call is one
atomic step from the state the previous committed call produced. -/
def transitionStage (m : RegisteredModel) (v : Nat) (target : Stage)
    (archiveExisting : Bool) : Except MlErr RegisteredModel :=
  if m.versions.any (fun r => r.version == v) then
    Except.ok
      { m with versions := m.versions.map (applyTransition v target archiveExisting) }
  else
    Except.error MlErr.notFound

theorem applyTransition_version (v : Nat) (target : Stage) (a : Bool)
    (r : ModelVersion) : (applyTransition v target a r).version = r.version := by
  unfold applyTransition
  split
  · rfl
  · split <;> rfl

theorem applyTransition_self (v : Nat) (target : Stage) (a : Bool)
    (r : ModelVersion) (h : r.version = v) :
    applyTransition v target a r = { r with stage := target } := by
  simp [applyTransition, h]

theorem applyTransition_other_production (v : Nat) (r : ModelVersion)
    (h : r.version ≠ v) (hs : r.stage = Stage.production) :
    applyTransition v Stage.production true r = { r with stage := Stage.archived } := by
  simp [applyTransition, h, hs]

theorem applyTransition_production_only_target (v : Nat) (r : ModelVersion)
    (h : (applyTransition v Stage.production true r).stage = Stage.production) :
    (applyTransition v Stage.production true r).version = v := by
  by_cases hv : r.version = v
  · rw [applyTransition_self v _ _ r hv, hv]
  · by_cases hs : r.stage = Stage.production
    · rw [applyTransition_other_production v r hv hs] at h
      exact absurd h (by simp)
    · have : applyTransition v Stage.production true r = r := by
        simp [applyTransition, hv, hs]
      rw [this] at h
      exact absurd h hs

/-- **C3.** If some version `v2 ≠ v` of a model is currently in stage
Production, then `transitionStage(m, v, Production, archiveExisting := true)`
succeeds and in the (single, all-or-nothing) resulting state: `v` is in
Production, `v2` is Archived, every other version that was in Production is
Archived, and no version other than `v` is in Production — the new version
list is exactly the image of the old one under the one-step transition map,
so no partial subset of the archive side-effects can be observed. -/
theorem transitionStage_archive_existing
    (m : RegisteredModel) (v v2 : Nat)
    (hv : ∃ rec ∈ m.versions, rec.version = v)
    (hv2 : ∃ rec ∈ m.versions, rec.version = v2 ∧ rec.stage = Stage.production)
    (hne : v2 ≠ v) :
    ∃ m', transitionStage m v Stage.production true = Except.ok m' ∧
      m'.versions = m.versions.map (applyTransition v Stage.production true) ∧
      (∃ rec ∈ m'.versions, rec.version = v ∧ rec.stage = Stage.production) ∧
      (∃ rec ∈ m'.versions, rec.version = v2 ∧ rec.stage = Stage.archived) ∧
      (∀ rec ∈ m.versions, rec.version ≠ v → rec.stage = Stage.production →
        ∃ rec2 ∈ m'.versions, rec2.version = rec.version ∧
          rec2.stage = Stage.archived) ∧
      (∀ rec ∈ m'.versions, rec.stage = Stage.production → rec.version = v) := by
  obtain ⟨rv, hrvmem, hrv⟩ := hv
  have hany : m.versions.any (fun r => r.version == v) = true := by
    rw [List.any_eq_true]
    exact ⟨rv, hrvmem, by simp [hrv]⟩
  refine ⟨_, by rw [transitionStage, if_pos hany], rfl, ?_, ?_, ?_, ?_⟩
  · refine ⟨applyTransition v Stage.production true rv, List.mem_map_of_mem _ hrvmem, ?_⟩
    rw [applyTransition_self v _ _ rv hrv]
    exact ⟨hrv, rfl⟩
  · obtain ⟨r2, hr2mem, hr2v, hr2s⟩ := hv2
    refine ⟨applyTransition v Stage.production true r2, List.mem_map_of_mem _ hr2mem, ?_⟩
    rw [applyTransition_other_production v r2 (hr2v ▸ hne) hr2s]
    exact ⟨hr2v, rfl⟩
  · intro rec hmem hnv hs
    refine ⟨applyTransition v Stage.production true rec, List.mem_map_of_mem _ hmem, ?_⟩
    rw [applyTransition_other_production v rec hnv hs]
    exact ⟨rfl, rfl⟩
  · intro rec hmem hs
    obtain ⟨r0, _, hr0⟩ := List.mem_map.mp hmem
    rw [← hr0] at hs ⊢
    exact applyTransition_production_only_target v r0 hs

/-- Witness for C3 at a concrete model: version 1 is Production, promoting
version 2 with `archiveExisting` succeeds, archives version 1 and promotes
version 2. -/
theorem transitionStage_archive_existing_witness :
    ∃ m', transitionStage
        ⟨"m", 2, [⟨1, Stage.production, VersionStatus.ready, "u1"⟩,
                  ⟨2, Stage.none, VersionStatus.ready, "u2"⟩]⟩
        2 Stage.production true = Except.ok m' ∧
      m'.versions =
        ([⟨1, Stage.production, VersionStatus.ready, "u1"⟩,
          ⟨2, Stage.none, VersionStatus.ready, "u2"⟩] :
            List ModelVersion).map (applyTransition 2 Stage.production true) ∧
      (∃ rec ∈ m'.versions, rec.version = 2 ∧ rec.stage = Stage.production) ∧
      (∃ rec ∈ m'.versions, rec.version = 1 ∧ rec.stage = Stage.archived) ∧
      (∀ rec ∈ ([⟨1, Stage.production, VersionStatus.ready, "u1"⟩,
                 ⟨2, Stage.none, VersionStatus.ready, "u2"⟩] : List ModelVersion),
        rec.version ≠ 2 → rec.stage = Stage.production →
        ∃ rec2 ∈ m'.versions, rec2.version = rec.version ∧
          rec2.stage = Stage.archived) ∧
      (∀ rec ∈ m'.versions, rec.stage = Stage.production → rec.version = 2) :=
  transitionStage_archive_existing
    ⟨"m", 2, [⟨1, Stage.production, VersionStatus.ready, "u1"⟩,
              ⟨2, Stage.none, VersionStatus.ready, "u2"⟩]⟩
    2 1 (by simp) (by simp) (by decide)

/-- Modelled from the spec: the registry operations that touch a registered
model's version set — creating a version, deleting a version (which per
section 4.3 "removes its registry record"; this is also the rollback of a
failed allocation, the one case the spec allows to leave a gap), marking a
version FAILED after a source-copy failure (the number stays consumed), and
a stage transition. -/
inductive RegistryOp where
  | createVersion (uri : String)
  | deleteVersion (v : Nat)
  | markFailed (v : Nat)
  | setStage (v : Nat) (target : Stage) (archiveExisting : Bool)
deriving DecidableEq, Repr

/-- Modelled from the spec: one serialized registry operation applied to a
registered model's state. -/
def applyOp (m : RegisteredModel) : RegistryOp → RegisteredModel
  | RegistryOp.createVersion uri => (createModelVersion m uri).1
  | RegistryOp.deleteVersion v =>
      { m with versions := m.versions.filter (fun r => !(r.version == v)) }
  | RegistryOp.markFailed v =>
      { m with versions := m.versions.map (fun r =>
          if r.version = v then { r with status := VersionStatus.failed } else r) }
  | RegistryOp.setStage v target a =>
      match transitionStage m v target a with
      | Except.ok m2 => m2
      | Except.error _ => m

/-- A serialized trace of registry operations run from a starting state. -/
def runOps (m : RegisteredModel) (ops : List RegistryOp) : RegisteredModel :=
  ops.foldl applyOp m

/-- The version numbers handed out by the `createVersion` steps of a trace,
in allocation order. -/
def allocHistory : RegisteredModel → List RegistryOp → List Nat
  | _, [] => []
  | m, RegistryOp.createVersion uri :: ops =>
      (createModelVersion m uri).2 ::
        allocHistory (applyOp m (RegistryOp.createVersion uri)) ops
  | m, op :: ops => allocHistory (applyOp m op) ops

/-- Number of `createVersion` operations in a trace. -/
def countCreates : List RegistryOp → Nat
  | [] => 0
  | RegistryOp.createVersion _ :: ops => countCreates ops + 1
  | _ :: ops => countCreates ops

/-- Whether an operation is a version deletion (record removal / rollback). -/
def isDeleteOp : RegistryOp → Bool
  | RegistryOp.deleteVersion _ => true
  | _ => false

/-- A freshly created registered model: no versions, counter at 0, so the
first allocated number is 1. -/
def emptyModel (nm : String) : RegisteredModel := ⟨nm, 0, []⟩

theorem applyOp_setStage_cases (m : RegisteredModel) (v : Nat) (target : Stage)
    (a : Bool) :
    applyOp m (RegistryOp.setStage v target a) = m ∨
    applyOp m (RegistryOp.setStage v target a) =
      { m with versions := m.versions.map (applyTransition v target a) } := by
  by_cases hc : (m.versions.any fun r => r.version == v) = true
  · right
    have ht : transitionStage m v target a = Except.ok
        { m with versions := m.versions.map (applyTransition v target a) } := by
      unfold transitionStage
      rw [if_pos hc]
    show (match transitionStage m v target a with
      | Except.ok m2 => m2
      | Except.error _ => m) = _
    rw [ht]
  · left
    have ht : transitionStage m v target a = Except.error MlErr.notFound := by
      unfold transitionStage
      rw [if_neg hc]
    show (match transitionStage m v target a with
      | Except.ok m2 => m2
      | Except.error _ => m) = _
    rw [ht]

theorem applyOp_lastAllocated (m : RegisteredModel) (op : RegistryOp) :
    (applyOp m op).lastAllocated = m.lastAllocated + countCreates [op] := by
  cases op with
  | createVersion uri => rfl
  | deleteVersion v => rfl
  | markFailed v => rfl
  | setStage v target a =>
    rcases applyOp_setStage_cases m v target a with h | h <;> rw [h] <;> rfl

theorem versionNumbers_applyOp_markFailed (m : RegisteredModel) (v : Nat) :
    versionNumbers (applyOp m (RegistryOp.markFailed v)) = versionNumbers m := by
  show List.map _ (m.versions.map _) = _
  rw [List.map_map]
  refine List.map_congr_left ?_
  intro r _
  show (if r.version = v then { r with status := VersionStatus.failed }
        else r).version = r.version
  split <;> rfl

theorem versionNumbers_applyOp_setStage (m : RegisteredModel) (v : Nat)
    (target : Stage) (a : Bool) :
    versionNumbers (applyOp m (RegistryOp.setStage v target a)) = versionNumbers m := by
  rcases applyOp_setStage_cases m v target a with h | h
  · rw [h]
  · rw [h]
    show List.map _ (m.versions.map _) = _
    rw [List.map_map]
    refine List.map_congr_left ?_
    intro r _
    exact applyTransition_version v target a r

/-- Bound invariant: every stored version number lies in
`[1, lastAllocated]`. -/
def VersionsBounded (m : RegisteredModel) : Prop :=
  ∀ w ∈ versionNumbers m, 1 ≤ w ∧ w ≤ m.lastAllocated

/-- The full registry invariant for C2: stored version numbers are strictly
increasing in creation order and bounded by the allocation counter. -/
def RegistryInv (m : RegisteredModel) : Prop :=
  List.Pairwise (· < ·) (versionNumbers m) ∧ VersionsBounded m

theorem registryInv_applyOp (m : RegisteredModel) (op : RegistryOp)
    (h : RegistryInv m) : RegistryInv (applyOp m op) := by
  obtain ⟨hp, hb⟩ := h
  cases op with
  | createVersion uri =>
    constructor
    · show List.Pairwise (· < ·)
        (List.map _ (m.versions ++ [newVersionRecord (m.lastAllocated + 1) uri]))
      rw [List.map_append, List.pairwise_append]
      refine ⟨hp, List.pairwise_singleton _ _, ?_⟩
      intro a ha b hb2
      have := hb a ha
      simp only [newVersionRecord, List.map_cons, List.map_nil,
        List.mem_singleton] at hb2
      omega
    · intro w hw
      show 1 ≤ w ∧ w ≤ m.lastAllocated + 1
      have hw2 : w ∈ List.map (fun r => r.version)
          (m.versions ++ [newVersionRecord (m.lastAllocated + 1) uri]) := hw
      rw [List.map_append, List.mem_append] at hw2
      rcases hw2 with hw2 | hw2
      · have := hb w hw2
        omega
      · simp only [newVersionRecord, List.map_cons, List.map_nil,
          List.mem_singleton] at hw2
        omega
  | deleteVersion v =>
    have hsub : versionNumbers (applyOp m (RegistryOp.deleteVersion v)) |>.Sublist
        (versionNumbers m) :=
      List.Sublist.map _ (List.filter_sublist _)
    constructor
    · exact List.Pairwise.sublist hsub hp
    · intro w hw
      have := hb w (hsub.mem hw)
      show 1 ≤ w ∧ w ≤ m.lastAllocated
      omega
  | markFailed v =>
    rw [RegistryInv, versionNumbers_applyOp_markFailed,
      VersionsBounded, versionNumbers_applyOp_markFailed]
    exact ⟨hp, fun w hw => hb w hw⟩
  | setStage v target a =>
    rw [RegistryInv, versionNumbers_applyOp_setStage,
      VersionsBounded, versionNumbers_applyOp_setStage,
      applyOp_lastAllocated]
    have hc : countCreates [RegistryOp.setStage v target a] = 0 := rfl
    rw [hc]
    exact ⟨hp, fun w hw => hb w hw⟩

theorem registryInv_runOps (ops : List RegistryOp) :
    ∀ m : RegisteredModel, RegistryInv m → RegistryInv (runOps m ops) := by
  induction ops with
  | nil => exact fun m h => h
  | cons op ops ih =>
    intro m h
    exact ih (applyOp m op) (registryInv_applyOp m op h)

theorem allocHistory_eq (ops : List RegistryOp) :
    ∀ m : RegisteredModel,
      allocHistory m ops = List.range' (m.lastAllocated + 1) (countCreates ops) := by
  induction ops with
  | nil => intro m; rfl
  | cons op ops ih =>
    intro m
    cases op with
    | createVersion uri =>
      show (m.lastAllocated + 1) :: allocHistory (applyOp m _) ops =
        List.range' (m.lastAllocated + 1) (countCreates ops + 1)
      rw [List.range'_succ, ih]
      have : (applyOp m (RegistryOp.createVersion uri)).lastAllocated =
          m.lastAllocated + 1 := rfl
      rw [this]
    | deleteVersion v =>
      show allocHistory (applyOp m _) ops = _
      rw [ih]
      rfl
    | markFailed v =>
      show allocHistory (applyOp m _) ops = _
      rw [ih]
      rfl
    | setStage v target a =>
      show allocHistory (applyOp m _) ops = _
      rw [ih, applyOp_lastAllocated]
      rfl

theorem versionNumbers_gapfree_applyOp (m : RegisteredModel) (op : RegistryOp)
    (hnd : isDeleteOp op = false)
    (h : versionNumbers m = List.range' 1 m.lastAllocated) :
    versionNumbers (applyOp m op) =
      List.range' 1 (applyOp m op).lastAllocated := by
  cases op with
  | createVersion uri =>
    show List.map _ (m.versions ++ [newVersionRecord (m.lastAllocated + 1) uri]) =
      List.range' 1 (m.lastAllocated + 1)
    rw [List.map_append]
    have hconcat : List.range' 1 (m.lastAllocated + 1) =
        List.range' 1 m.lastAllocated ++ [1 + 1 * m.lastAllocated] :=
      List.range'_concat 1 m.lastAllocated
    have h1 : 1 + 1 * m.lastAllocated = m.lastAllocated + 1 := by omega
    rw [hconcat, h1, ← h]
    rfl
  | deleteVersion v => exact absurd hnd (by simp [isDeleteOp])
  | markFailed v =>
    rw [versionNumbers_applyOp_markFailed, applyOp_lastAllocated, h]
    rfl
  | setStage v target a =>
    rw [versionNumbers_applyOp_setStage, applyOp_lastAllocated, h]
    rfl

theorem versionNumbers_gapfree_runOps (ops : List RegistryOp)
    (hnd : ∀ op ∈ ops, isDeleteOp op = false) :
    ∀ m : RegisteredModel, versionNumbers m = List.range' 1 m.lastAllocated →
      versionNumbers (runOps m ops) =
        List.range' 1 (runOps m ops).lastAllocated := by
  induction ops with
  | nil => exact fun m h => h
  | cons op ops ih =>
    intro m h
    have h1 : isDeleteOp op = false := hnd op (List.mem_cons_self op ops)
    have h2 : ∀ o ∈ ops, isDeleteOp o = false :=
      fun o ho => hnd o (List.mem_cons_of_mem op ho)
    exact ih h2 (applyOp m op) (versionNumbers_gapfree_applyOp m op h1 h)

/-- **C2.** Run any serialized trace of registry operations (create / delete
/ mark-FAILED / stage-transition) from a freshly created registered model.
Then: (a) the sequence of allocated version numbers is exactly
`1, 2, ..., k` for `k` creations — strictly increasing, starting at 1,
gap-free, and (being strictly increasing) no number is ever handed out
twice, even after the version holding it was deleted or marked FAILED;
(b) the stored version records keep strictly increasing numbers at least 1;
(c) if the trace contains no deletion (the rollback of a failed allocation
being the delete of its record), the stored numbers are exactly
`1, ..., lastAllocated` — gap-free. -/
theorem modelVersion_number_monotonicity (nm : String) (ops : List RegistryOp) :
    allocHistory (emptyModel nm) ops = List.range' 1 (countCreates ops) ∧
    List.Pairwise (· < ·) (allocHistory (emptyModel nm) ops) ∧
    List.Pairwise (· < ·) (versionNumbers (runOps (emptyModel nm) ops)) ∧
    (∀ w ∈ versionNumbers (runOps (emptyModel nm) ops), 1 ≤ w) ∧
    ((∀ op ∈ ops, isDeleteOp op = false) →
      versionNumbers (runOps (emptyModel nm) ops) =
        List.range' 1 (runOps (emptyModel nm) ops).lastAllocated) := by
  have hinv : RegistryInv (runOps (emptyModel nm) ops) :=
    registryInv_runOps ops (emptyModel nm) ⟨List.Pairwise.nil, by intro w hw; cases hw⟩
  refine ⟨allocHistory_eq ops (emptyModel nm), ?_, hinv.1, ?_, ?_⟩
  · rw [allocHistory_eq ops (emptyModel nm)]
    exact List.pairwise_lt_range' _ _
  · exact fun w hw => (hinv.2 w hw).1
  · intro hnd
    exact versionNumbers_gapfree_runOps ops hnd (emptyModel nm) rfl

/-- Witness for C2 at a concrete trace: two creations, a FAILED mark on
version 2 and a stage transition — no deletion, so the stored numbers are
exactly `[1, 2]` and the allocation history is `[1, 2]`. -/
theorem modelVersion_number_monotonicity_witness :
    allocHistory (emptyModel "m")
        [RegistryOp.createVersion "u1", RegistryOp.createVersion "u2",
         RegistryOp.markFailed 2,
         RegistryOp.setStage 1 Stage.production true] = List.range' 1 2 ∧
    versionNumbers (runOps (emptyModel "m")
        [RegistryOp.createVersion "u1", RegistryOp.createVersion "u2",
         RegistryOp.markFailed 2,
         RegistryOp.setStage 1 Stage.production true]) =
      List.range' 1 (runOps (emptyModel "m")
        [RegistryOp.createVersion "u1", RegistryOp.createVersion "u2",
         RegistryOp.markFailed 2,
         RegistryOp.setStage 1 Stage.production true]).lastAllocated :=
  ⟨(modelVersion_number_monotonicity "m"
      [RegistryOp.createVersion "u1", RegistryOp.createVersion "u2",
       RegistryOp.markFailed 2,
       RegistryOp.setStage 1 Stage.production true]).1,
   (modelVersion_number_monotonicity "m"
      [RegistryOp.createVersion "u1", RegistryOp.createVersion "u2",
       RegistryOp.markFailed 2,
       RegistryOp.setStage 1 Stage.production true]).2.2.2.2 (by decide)⟩

/-- Modelled from the spec: run status
(running/finished/failed/killed/scheduled). -/
inductive RunStatus where
  | running
  | scheduled
  | finished
  | failed
  | killed
deriving DecidableEq, Repr

/-- Modelled from the spec: the terminal run statuses
(finished/failed/killed). -/
def RunStatus.isTerminal : RunStatus → Bool
  | RunStatus.finished => true
  | RunStatus.failed => true
  | RunStatus.killed => true
  | _ => false

/-- Modelled from the spec: a metric data point
(key, value, timestamp, step); the run id is carried by the enclosing
`RunData`.  Values and timestamps are integers in this embedding. -/
structure MetricPoint where
  key : String
  value : Int
  timestamp : Int
  step : Int
deriving DecidableEq, Repr

/-- Modelled from the spec: the per-run slice of the Tracking Store — status,
params (write-once assoc list), metrics (append-only list in insertion
order) and the end timestamp. -/
structure RunData where
  status : RunStatus
  params : List (String × String)
  metrics : List MetricPoint
  endTime : Option Int
deriving DecidableEq, Repr

/-- First value stored under a key in an association list. -/
def lookupKey : List (String × String) → String → Option String
  | [], _ => none
  | (k, v) :: ps, q => if k = q then some v else lookupKey ps q

theorem lookupKey_append_of_none (ps : List (String × String)) (k v : String)
    (h : lookupKey ps k = none) :
    lookupKey (ps ++ [(k, v)]) k = some v := by
  induction ps with
  | nil => simp [lookupKey]
  | cons p ps ih =>
    rw [lookupKey] at h
    rw [List.cons_append, lookupKey]
    split at h
    · cases h
    · next hne =>
      rw [if_neg hne]
      exact ih h

/-- Modelled from the spec: `logParam(runId, key, value)` — first writer
wins; a second call with a different value for the same key fails
`Conflict`; the same value is a no-op success; logging to a run in a
terminal status is illegal (`InvalidState`).  On an error the store is left
untouched (the caller's state is the unchanged `RunData`). -/
def logParam (r : RunData) (k v : String) : Except MlErr RunData :=
  if r.status.isTerminal then Except.error MlErr.invalidState
  else
    match lookupKey r.params k with
    | some v0 => if v0 = v then Except.ok r else Except.error MlErr.conflict
    | none => Except.ok { r with params := r.params ++ [(k, v)] }

theorem logParam_ok_lookup (r r1 : RunData) (k v : String)
    (h : logParam r k v = Except.ok r1) :
    lookupKey r1.params k = some v ∧ r1.status = r.status := by
  rw [logParam] at h
  split at h
  · cases h
  · split at h
    · next v0 hv0 =>
      split at h
      · next hev =>
        cases h
        exact ⟨by rw [hv0, hev], rfl⟩
      · cases h
    · next hnone =>
      cases h
      exact ⟨lookupKey_append_of_none _ _ _ hnone, rfl⟩

/-- **C4.** If `logParam r k v1` succeeded with post-state `r1`, then
re-issuing the same write is a no-op success (returns `r1` unchanged), while
writing any `v2 ≠ v1` under the same key fails with `Conflict` — producing
no new state, so the stored value for `k` remains `v1`. -/
theorem logParam_first_writer_wins (r r1 : RunData) (k v1 v2 : String)
    (h : logParam r k v1 = Except.ok r1) (hne : v2 ≠ v1) :
    logParam r1 k v1 = Except.ok r1 ∧
    logParam r1 k v2 = Except.error MlErr.conflict ∧
    lookupKey r1.params k = some v1 := by
  obtain ⟨hl, hs⟩ := logParam_ok_lookup r r1 k v1 h
  have hterm : r1.status.isTerminal = false := by
    rw [hs]
    by_contra hc
    have hc2 : r.status.isTerminal = true := by
      revert hc
      cases r.status.isTerminal <;> simp
    rw [logParam, hc2] at h
    cases h
  refine ⟨?_, ?_, hl⟩
  · rw [logParam, hterm]
    show (match lookupKey r1.params k with
      | some v0 => if v0 = v1 then Except.ok r1 else Except.error MlErr.conflict
      | none => Except.ok _) = Except.ok r1
    rw [hl]
    simp
  · rw [logParam, hterm]
    show (match lookupKey r1.params k with
      | some v0 => if v0 = v2 then Except.ok r1 else Except.error MlErr.conflict
      | none => Except.ok _) = Except.error MlErr.conflict
    rw [hl]
    exact if_neg (Ne.symm hne)

/-- Witness for C4 at a concrete run: param `lr` is first logged as `0.01`;
relogging `0.01` succeeds unchanged and logging `0.02` fails `Conflict`. -/
theorem logParam_first_writer_wins_witness :
    logParam ⟨RunStatus.running, [("lr", "0.01")], [], Option.none⟩ "lr" "0.01" =
      Except.ok ⟨RunStatus.running, [("lr", "0.01")], [], Option.none⟩ ∧
    logParam ⟨RunStatus.running, [("lr", "0.01")], [], Option.none⟩ "lr" "0.02" =
      Except.error MlErr.conflict ∧
    lookupKey [("lr", "0.01")] "lr" = some "0.01" :=
  logParam_first_writer_wins ⟨RunStatus.running, [], [], Option.none⟩
    ⟨RunStatus.running, [("lr", "0.01")], [], Option.none⟩
    "lr" "0.01" "0.02" rfl (by decide)

/-- Modelled from the spec: `logMetric(runId, key, value, timestamp, step)`
— appends a data point; retries are "idempotent by value-equality": a call
whose (key, value, timestamp, step) tuple is already stored is a no-op
success, any other tuple is treated as a new data point and appended.
Logging to a run in a terminal status is illegal (`InvalidState`). -/
def logMetric (r : RunData) (p : MetricPoint) : Except MlErr RunData :=
  if r.status.isTerminal then Except.error MlErr.invalidState
  else if p ∈ r.metrics then Except.ok r
  else Except.ok { r with metrics := r.metrics ++ [p] }

theorem logMetric_ok_facts (r r1 : RunData) (p : MetricPoint)
    (h : logMetric r p = Except.ok r1) :
    r1.status = r.status ∧ p ∈ r1.metrics := by
  rw [logMetric] at h
  split at h
  · cases h
  · split at h
    · next hmem =>
      cases h
      exact ⟨rfl, hmem⟩
    · cases h
      exact ⟨rfl, by simp⟩

/-- **C6.** If `logMetric r p` succeeded with post-state `r1`, then replaying
the identical tuple `p` leaves the stored metric history unchanged (it
returns `r1` itself), while logging any tuple `q` not yet in the history —
in particular any tuple differing from every logged point in some field —
appends exactly the new point `q`. -/
theorem logMetric_idempotent_replay (r r1 : RunData) (p q : MetricPoint)
    (h : logMetric r p = Except.ok r1) (hq : q ∉ r1.metrics) :
    logMetric r1 p = Except.ok r1 ∧
    logMetric r1 q = Except.ok { r1 with metrics := r1.metrics ++ [q] } := by
  obtain ⟨hs, hmem⟩ := logMetric_ok_facts r r1 p h
  have hterm : r1.status.isTerminal = false := by
    rw [hs]
    by_contra hc
    have hc2 : r.status.isTerminal = true := by
      revert hc
      cases r.status.isTerminal <;> simp
    rw [logMetric, hc2] at h
    cases h
  constructor
  · rw [logMetric, hterm]
    simp [hmem]
  · rw [logMetric, hterm]
    simp [hq]

/-- Witness for C6 at a concrete run: replaying the identical point is a
no-op, a point differing only in value is appended. -/
theorem logMetric_idempotent_replay_witness :
    logMetric ⟨RunStatus.running, [], [⟨"loss", 5, 100, 0⟩], Option.none⟩
        ⟨"loss", 5, 100, 0⟩ =
      Except.ok ⟨RunStatus.running, [], [⟨"loss", 5, 100, 0⟩], Option.none⟩ ∧
    logMetric ⟨RunStatus.running, [], [⟨"loss", 5, 100, 0⟩], Option.none⟩
        ⟨"loss", 6, 100, 0⟩ =
      Except.ok ⟨RunStatus.running, [],
        [⟨"loss", 5, 100, 0⟩] ++ [⟨"loss", 6, 100, 0⟩], Option.none⟩ :=
  logMetric_idempotent_replay
    ⟨RunStatus.running, [], [], Option.none⟩
    ⟨RunStatus.running, [], [⟨"loss", 5, 100, 0⟩], Option.none⟩
    ⟨"loss", 5, 100, 0⟩ ⟨"loss", 6, 100, 0⟩ rfl (by decide)

/-- Modelled from the spec: `updateRunStatus(runId, status, endTime?)` — a
one-directional progression; an attempt to leave a terminal status
(finished/failed/killed) fails `InvalidState`, and on an error the stored
run is untouched. -/
def updateRunStatus (r : RunData) (s : RunStatus) (endTime : Option Int) :
    Except MlErr RunData :=
  if r.status.isTerminal ∧ s ≠ r.status then Except.error MlErr.invalidState
  else Except.ok { r with status := s, endTime := endTime }

/-- The run state the store holds after an `updateRunStatus` call: the new
state on success, the unchanged old state on an error. -/
def runAfterUpdate (r : RunData) (s : RunStatus) (endTime : Option Int) :
    RunData :=
  match updateRunStatus r s endTime with
  | Except.ok r1 => r1
  | Except.error _ => r

/-- **C8.** For a run whose status is terminal, every `updateRunStatus` call
targeting any other status fails with `InvalidState`, and the run the store
holds afterwards is the unchanged old run — in particular its status is
unchanged. -/
theorem updateRunStatus_terminal_frozen (r : RunData) (s : RunStatus)
    (t : Option Int) (hterm : r.status.isTerminal = true)
    (hne : s ≠ r.status) :
    updateRunStatus r s t = Except.error MlErr.invalidState ∧
    runAfterUpdate r s t = r ∧
    (runAfterUpdate r s t).status = r.status := by
  have h : updateRunStatus r s t = Except.error MlErr.invalidState := by
    rw [updateRunStatus, if_pos ⟨hterm, hne⟩]
  refine ⟨h, ?_, ?_⟩
  · rw [runAfterUpdate, h]
  · rw [runAfterUpdate, h]

/-- Witness for C8 at a concrete run: a finished run cannot be moved back to
running. -/
theorem updateRunStatus_terminal_frozen_witness :
    updateRunStatus ⟨RunStatus.finished, [], [], some 7⟩ RunStatus.running
        Option.none = Except.error MlErr.invalidState ∧
    runAfterUpdate ⟨RunStatus.finished, [], [], some 7⟩ RunStatus.running
        Option.none = ⟨RunStatus.finished, [], [], some 7⟩ ∧
    (runAfterUpdate ⟨RunStatus.finished, [], [], some 7⟩ RunStatus.running
        Option.none).status = RunStatus.finished :=
  updateRunStatus_terminal_frozen ⟨RunStatus.finished, [], [], some 7⟩
    RunStatus.running Option.none (by decide) (by decide)

/-- Modelled from the spec: the read-back order of a run's metric points —
by (step, timestamp). -/
def MetricLe (p q : MetricPoint) : Prop :=
  p.step < q.step ∨ (p.step = q.step ∧ p.timestamp ≤ q.timestamp)

/-- Strict (step, timestamp) order on metric points. -/
def MetricLt (p q : MetricPoint) : Prop :=
  p.step < q.step ∨ (p.step = q.step ∧ p.timestamp < q.timestamp)

/-- The (step, timestamp) pair of a metric point. -/
def stepTs (p : MetricPoint) : Int × Int := (p.step, p.timestamp)

instance : DecidableRel MetricLe := fun p q =>
  inferInstanceAs
    (Decidable (p.step < q.step ∨ (p.step = q.step ∧ p.timestamp ≤ q.timestamp)))

instance : DecidableRel MetricLt := fun p q =>
  inferInstanceAs
    (Decidable (p.step < q.step ∨ (p.step = q.step ∧ p.timestamp < q.timestamp)))

instance : IsTotal MetricPoint MetricLe :=
  ⟨fun p q => by unfold MetricLe; omega⟩

instance : IsTrans MetricPoint MetricLe :=
  ⟨fun p q w hpq hqw => by
    unfold MetricLe at hpq hqw ⊢
    omega⟩

/-- Modelled from the spec: reading back a run's metric points "ordered by
(step, timestamp)"; the sort is a stable sort of the insertion-ordered
stored list, so ties are broken by insertion order. -/
def readMetrics (r : RunData) : List MetricPoint :=
  List.insertionSort MetricLe r.metrics

/-- A sequence of `logMetric` calls, stopping at the first error. -/
def logMetricsAll (r : RunData) : List MetricPoint → Except MlErr RunData
  | [] => Except.ok r
  | p :: ps =>
    match logMetric r p with
    | Except.ok r1 => logMetricsAll r1 ps
    | Except.error e => Except.error e

theorem metricLt_of_le_ne (p q : MetricPoint) (hle : MetricLe p q)
    (hne : stepTs p ≠ stepTs q) : MetricLt p q := by
  unfold MetricLe at hle
  unfold MetricLt
  have hne2 : ¬(p.step = q.step ∧ p.timestamp = q.timestamp) := by
    intro hand
    exact hne (by unfold stepTs; rw [hand.1, hand.2])
  omega

theorem logMetricsAll_ok (ps : List MetricPoint) :
    ∀ r : RunData, r.status.isTerminal = false → ps.Nodup →
      (∀ p ∈ ps, p ∉ r.metrics) →
      logMetricsAll r ps = Except.ok { r with metrics := r.metrics ++ ps } := by
  induction ps with
  | nil =>
    intro r _ _ _
    simp [logMetricsAll]
  | cons p ps ih =>
    intro r h1 h2 h3
    have hpnot : p ∉ r.metrics := h3 p (List.mem_cons_self p ps)
    have hstep : logMetric r p =
        Except.ok { r with metrics := r.metrics ++ [p] } := by
      rw [logMetric, h1]
      simp [hpnot]
    rw [logMetricsAll, hstep]
    have hnd := List.nodup_cons.mp h2
    have hih := ih { r with metrics := r.metrics ++ [p] } h1 hnd.2 ?_
    · show logMetricsAll { r with metrics := r.metrics ++ [p] } ps = _
      rw [hih]
      simp
    · intro q hq
      show q ∉ r.metrics ++ [p]
      rw [List.mem_append]
      rintro (hin | hin)
      · exact h3 q (List.mem_cons_of_mem p hq) hin
      · rw [List.mem_singleton] at hin
        exact hnd.1 (hin ▸ hq)

/-- **C5.** Logging any sequence of metric points with pairwise distinct
(step, timestamp) pairs on a run with an empty metric history succeeds, and
reading the run's metrics back returns exactly the logged points (a
permutation: none missing, none added) ordered by (step, timestamp); with
the pairs distinct the order is moreover strict, so the read-back sequence
is totally determined. -/
theorem logMetric_readback_exact (r0 : RunData) (ps : List MetricPoint)
    (hterm : r0.status.isTerminal = false) (hempty : r0.metrics = [])
    (hdist : List.Pairwise (fun p q => stepTs p ≠ stepTs q) ps) :
    ∃ r1, logMetricsAll r0 ps = Except.ok r1 ∧
      List.Perm (readMetrics r1) ps ∧
      List.Sorted MetricLe (readMetrics r1) ∧
      List.Sorted MetricLt (readMetrics r1) := by
  have hnodup : ps.Nodup := by
    refine hdist.imp ?_
    intro a b hab he
    exact hab (he ▸ rfl)
  have hfresh : ∀ p ∈ ps, p ∉ r0.metrics := by
    rw [hempty]
    intro p _ hmem
    cases hmem
  have hall := logMetricsAll_ok ps r0 hterm hnodup hfresh
  have hmet : ({ r0 with metrics := r0.metrics ++ ps } : RunData).metrics = ps := by
    show r0.metrics ++ ps = ps
    rw [hempty, List.nil_append]
  have hperm : List.Perm (List.insertionSort MetricLe ps) ps :=
    List.perm_insertionSort MetricLe ps
  have hle : List.Sorted MetricLe (List.insertionSort MetricLe ps) :=
    List.sorted_insertionSort MetricLe ps
  have hdist2 : List.Pairwise (fun p q => stepTs p ≠ stepTs q)
      (List.insertionSort MetricLe ps) := by
    refine (hperm.pairwise_iff ?_).mpr hdist
    intro x y hxy he
    exact hxy he.symm
  refine ⟨_, hall, ?_, ?_, ?_⟩
  · rw [readMetrics, hmet]
    exact hperm
  · rw [readMetrics, hmet]
    exact hle
  · rw [readMetrics, hmet]
    exact (hle.and hdist2).imp fun hab => metricLt_of_le_ne _ _ hab.1 hab.2

/-- Witness for C5 at a concrete run: two points logged in reverse (step,
timestamp) order read back as a strictly sorted permutation. -/
theorem logMetric_readback_exact_witness :
    ∃ r1, logMetricsAll ⟨RunStatus.running, [], [], Option.none⟩
        [⟨"loss", 3, 200, 1⟩, ⟨"loss", 9, 100, 0⟩] = Except.ok r1 ∧
      List.Perm (readMetrics r1) [⟨"loss", 3, 200, 1⟩, ⟨"loss", 9, 100, 0⟩] ∧
      List.Sorted MetricLe (readMetrics r1) ∧
      List.Sorted MetricLt (readMetrics r1) :=
  logMetric_readback_exact ⟨RunStatus.running, [], [], Option.none⟩
    [⟨"loss", 3, 200, 1⟩, ⟨"loss", 9, 100, 0⟩] rfl rfl (by decide)

/-- Modelled from the spec: an Experiment — id, unique name, lifecycle stage
(`isActive = true` for active, `false` for soft-deleted). -/
structure Experiment where
  expId : Nat
  name : String
  isActive : Bool
deriving DecidableEq, Repr

/-- Modelled from the spec: the experiment-level slice of the Tracking Store,
together with the client-side "active experiment" convenience context that
the fluent API threads (the spec keeps that context with the caller, so it
lives here alongside the store for the convenience wrapper). -/
structure TrackingState where
  experiments : List Experiment
  nextExpId : Nat
  activeExperimentId : Option Nat
deriving DecidableEq, Repr

/-- The non-deleted experiment carrying a given name, if any. -/
def findActiveExperiment (es : List Experiment) (n : String) :
    Option Experiment :=
  es.find? (fun e => e.name == n && e.isActive)

/-- Modelled from the spec: `createExperiment(name)` — fails `AlreadyExists`
if the name collides with a non-deleted experiment, otherwise persists a new
active experiment under a fresh id and returns its id. -/
def createExperiment (st : TrackingState) (n : String) :
    Except MlErr (TrackingState × Nat) :=
  match findActiveExperiment st.experiments n with
  | some _ => Except.error MlErr.alreadyExists
  | Option.none =>
    Except.ok
      ({ st with
          experiments := st.experiments ++ [⟨st.nextExpId, n, true⟩]
          nextExpId := st.nextExpId + 1 }, st.nextExpId)

/-- Modelled from the spec: the fluent `set_experiment(name)` wrapper used by
the tutorial notebook — look the name up; if a non-deleted experiment has it,
make that one active; otherwise create the experiment (exactly the
`createExperiment` insert) and make the new one active.  The return type is
total: the call never fails, in particular never with `NotFound`. -/
def setExperiment (st : TrackingState) (n : String) : TrackingState × Nat :=
  match findActiveExperiment st.experiments n with
  | some e => ({ st with activeExperimentId := some e.expId }, e.expId)
  | Option.none =>
    ({ experiments := st.experiments ++ [⟨st.nextExpId, n, true⟩]
       nextExpId := st.nextExpId + 1
       activeExperimentId := some st.nextExpId }, st.nextExpId)

/-- **C9.** When no non-deleted experiment carries the requested name,
`setExperiment` does not fail (its type is total, so no `NotFound` is even
expressible); it performs the `createExperiment` insert for the name and
makes the newly created experiment the active one: the result state contains
an active experiment with that name whose id is the returned id, and that id
is recorded as the active experiment. -/
theorem setExperiment_creates_when_absent (st : TrackingState) (n : String)
    (habsent : findActiveExperiment st.experiments n = Option.none) :
    (∃ st1 : TrackingState,
        createExperiment st n = Except.ok (st1, (setExperiment st n).2) ∧
        (setExperiment st n).1.experiments = st1.experiments) ∧
    (∃ e ∈ (setExperiment st n).1.experiments,
        e.name = n ∧ e.isActive = true ∧ e.expId = (setExperiment st n).2) ∧
    (setExperiment st n).1.activeExperimentId = some (setExperiment st n).2 := by
  have hset : setExperiment st n =
      ({ experiments := st.experiments ++ [⟨st.nextExpId, n, true⟩]
         nextExpId := st.nextExpId + 1
         activeExperimentId := some st.nextExpId }, st.nextExpId) := by
    rw [setExperiment, habsent]
  have hcreate : createExperiment st n =
      Except.ok
        ({ st with
            experiments := st.experiments ++ [⟨st.nextExpId, n, true⟩]
            nextExpId := st.nextExpId + 1 }, st.nextExpId) := by
    rw [createExperiment, habsent]
  rw [hset]
  refine ⟨⟨_, hcreate, rfl⟩, ⟨⟨st.nextExpId, n, true⟩, ?_, rfl, rfl, rfl⟩, rfl⟩
  simp

/-- Witness for C9: setting a never-created experiment name on an empty
store creates it and makes it active. -/
theorem setExperiment_creates_when_absent_witness :
    (∃ st1 : TrackingState,
        createExperiment ⟨[], 0, Option.none⟩ "Google Agent" =
          Except.ok (st1, (setExperiment ⟨[], 0, Option.none⟩ "Google Agent").2) ∧
        (setExperiment ⟨[], 0, Option.none⟩ "Google Agent").1.experiments =
          st1.experiments) ∧
    (∃ e ∈ (setExperiment ⟨[], 0, Option.none⟩ "Google Agent").1.experiments,
        e.name = "Google Agent" ∧ e.isActive = true ∧
        e.expId = (setExperiment ⟨[], 0, Option.none⟩ "Google Agent").2) ∧
    (setExperiment ⟨[], 0, Option.none⟩ "Google Agent").1.activeExperimentId =
      some (setExperiment ⟨[], 0, Option.none⟩ "Google Agent").2 :=
  setExperiment_creates_when_absent ⟨[], 0, Option.none⟩ "Google Agent" rfl

/-- Modelled from the spec: the scalar element types of a signature's
columns (named columns with scalar element types). -/
inductive DType where
  | long
  | double
  | str
  | boolean
deriving DecidableEq, Repr

/-- Modelled from the spec: a structured scalar value; the double payload is
abstracted to an integer mantissa — the verified claims depend only on the
value's type tag and on equality. -/
inductive ScalarValue where
  | vLong (n : Int)
  | vDouble (n : Int)
  | vStr (s : String)
  | vBool (b : Bool)
deriving DecidableEq, Repr

/-- The type tag of a scalar value. -/
def ScalarValue.dtype : ScalarValue → DType
  | ScalarValue.vLong _ => DType.long
  | ScalarValue.vDouble _ => DType.double
  | ScalarValue.vStr _ => DType.str
  | ScalarValue.vBool _ => DType.boolean

/-- Modelled from the spec: the widening policy — a column type accepts a
value type if they are equal, or if the column is floating point and the
value is an integer (integer widenable to float, not the reverse). -/
def DType.accepts : DType → DType → Bool
  | DType.double, DType.long => true
  | t, u => t == u

/-- Modelled from the spec: one column of a signature — name, element type,
and whether the field is required (`required = true` means non-optional). -/
structure ColSpec where
  name : String
  dtype : DType
  required : Bool
deriving DecidableEq, Repr

/-- Modelled from the spec: a model signature — ordered input and output
column lists. -/
structure ModelSignature where
  inputs : List ColSpec
  outputs : List ColSpec
deriving DecidableEq, Repr

/-- A structured input record: named fields with scalar values. -/
abbrev Record := List (String × ScalarValue)

/-- First value stored under a field name in a record. -/
def lookupField : Record → String → Option ScalarValue
  | [], _ => Option.none
  | (k, v) :: fs, q => if k = q then some v else lookupField fs q

/-- Modelled from the spec: whether one column's constraint is satisfied by
a record — a present field must have a type the column accepts under the
widening policy, an absent field is allowed only for optional columns. -/
def colOk (rec : Record) (c : ColSpec) : Bool :=
  match lookupField rec c.name with
  | some v => c.dtype.accepts v.dtype
  | Option.none => !c.required

/-- Modelled from the spec: default (lenient about extra fields) input
validation — every declared column constraint holds; strict rejection of
unknown extra fields is a separate configuration setting not exercised by
the claims. -/
def conforms (sig : List ColSpec) (rec : Record) : Bool :=
  sig.all (colOk rec)

/-- Modelled from the spec: a loaded pyfunc model — the recorded signature
plus the per-record invocation function the selected flavor reconstructed
from the artifacts. -/
structure LoadedModel where
  signature : ModelSignature
  rowFn : Record → ScalarValue

/-- Modelled from the spec: the uniform `predict(structuredInput)` contract
— validation against the recorded signature is on by default
(logs-and-proceeds is an explicit opt-in that this default path does not
take): if any input record violates the signature, the call fails
`SignatureMismatch` and no model invocation output is produced; otherwise
each record is fed to the model and the outputs are returned in order. -/
def predict (lm : LoadedModel) (inputs : List Record) :
    Except MlErr (List ScalarValue) :=
  if inputs.all (fun rec => conforms lm.signature.inputs rec) then
    Except.ok (inputs.map lm.rowFn)
  else
    Except.error MlErr.signatureMismatch

/-- Modelled from the spec: the MLmodel manifest — declared flavor names in
the order they were written, serialized signature, optional source run id. -/
structure ModelDescriptor where
  flavors : List String
  signature : ModelSignature
  runId : Option String
deriving DecidableEq, Repr

/-- Modelled from the spec: the artifact-repository view the loader needs —
a path-addressed store of model manifests (`put` prepends, `get` finds the
most recent write, matching "get of a known path is always consistent once
put returns"). -/
abbrev ArtifactStore := List (String × ModelDescriptor)

/-- Read the manifest stored at a path. -/
def getDescriptor : ArtifactStore → String → Option ModelDescriptor
  | [], _ => Option.none
  | (p, d) :: st, q => if p = q then some d else getDescriptor st q

/-- Modelled from the spec: saving a model writes its manifest (flavors,
signature, run id) at the destination path, atomically. -/
def saveModel (st : ArtifactStore) (path : String) (flavors : List String)
    (sig : ModelSignature) (runId : Option String) : ArtifactStore :=
  (path, ⟨flavors, sig, runId⟩) :: st

/-- Modelled from the spec: the flavor registry — flavor name to the load
capability producing the invocable per-record function. -/
abbrev FlavorRegistry := List (String × (Record → ScalarValue))

/-- The load capability registered under a flavor name, if any. -/
def lookupFlavor : FlavorRegistry → String → Option (Record → ScalarValue)
  | [], _ => Option.none
  | (f, fn) :: reg, q => if f = q then some fn else lookupFlavor reg q

/-- Modelled from the spec: loaders try the declared flavors in the order
they were written and select the first one they support. -/
def findFlavor (reg : FlavorRegistry) : List String →
    Option (Record → ScalarValue)
  | [] => Option.none
  | f :: fs =>
    match lookupFlavor reg f with
    | some fn => some fn
    | Option.none => findFlavor reg fs

/-- Modelled from the spec: loading is a pure function of the manifest plus
the artifacts — fails `NotFound` for an absent path and `UnsupportedFlavor`
when no declared flavor is registered; otherwise yields the loaded model
carrying the recorded signature. -/
def loadModel (st : ArtifactStore) (path : String) (reg : FlavorRegistry) :
    Except MlErr LoadedModel :=
  match getDescriptor st path with
  | Option.none => Except.error MlErr.notFound
  | some d =>
    match findFlavor reg d.flavors with
    | some fn => Except.ok ⟨d.signature, fn⟩
    | Option.none => Except.error MlErr.unsupportedFlavor

theorem conforms_false_of_missing_required (sig : List ColSpec) (rec : Record)
    (h : ∃ c ∈ sig, c.required = true ∧ lookupField rec c.name = Option.none) :
    conforms sig rec = false := by
  obtain ⟨c, hc, hreq, habs⟩ := h
  rw [conforms]
  by_contra hall
  have hall2 : sig.all (colOk rec) = true := by
    revert hall
    cases sig.all (colOk rec) <;> simp
  have := (List.all_eq_true.mp hall2) c hc
  rw [colOk, habs, hreq] at this
  cases this

theorem conforms_false_of_bad_type (sig : List ColSpec) (rec : Record)
    (h : ∃ c ∈ sig, ∃ v, lookupField rec c.name = some v ∧
      c.dtype.accepts v.dtype = false) :
    conforms sig rec = false := by
  obtain ⟨c, hc, v, hv, hacc⟩ := h
  rw [conforms]
  by_contra hall
  have hall2 : sig.all (colOk rec) = true := by
    revert hall
    cases sig.all (colOk rec) <;> simp
  have := (List.all_eq_true.mp hall2) c hc
  rw [colOk, hv] at this
  have h2 : c.dtype.accepts v.dtype = true := this
  rw [hacc] at h2
  cases h2

/-- **C7.** Saving a model with signature `S` and reloading it (through any
flavor of the manifest that the loader supports) yields a loaded object
whose recorded signature equals `S`; with validation on by default,
`predict` on an input missing one of `S`'s required fields fails
`SignatureMismatch`, `predict` on an input whose field carries a type the
widening policy cannot accept fails `SignatureMismatch`, and `predict` on a
conforming input succeeds with the model's output. -/
theorem save_load_signature_roundtrip (st : ArtifactStore) (path : String)
    (flavors : List String) (S : ModelSignature) (runId : Option String)
    (reg : FlavorRegistry) (fn : Record → ScalarValue)
    (hf : findFlavor reg flavors = some fn)
    (badMissing badTyped good : Record)
    (hmiss : ∃ c ∈ S.inputs, c.required = true ∧
      lookupField badMissing c.name = Option.none)
    (htyped : ∃ c ∈ S.inputs, ∃ v, lookupField badTyped c.name = some v ∧
      c.dtype.accepts v.dtype = false)
    (hgood : conforms S.inputs good = true) :
    ∃ lm, loadModel (saveModel st path flavors S runId) path reg =
        Except.ok lm ∧
      lm.signature = S ∧
      predict lm [badMissing] = Except.error MlErr.signatureMismatch ∧
      predict lm [badTyped] = Except.error MlErr.signatureMismatch ∧
      predict lm [good] = Except.ok [lm.rowFn good] := by
  have hget : getDescriptor (saveModel st path flavors S runId) path =
      some ⟨flavors, S, runId⟩ := by
    rw [saveModel, getDescriptor, if_pos rfl]
  have hload : loadModel (saveModel st path flavors S runId) path reg =
      Except.ok ⟨S, fn⟩ := by
    rw [loadModel, hget]
    show (match findFlavor reg flavors with
      | some fn => Except.ok (⟨S, fn⟩ : LoadedModel)
      | Option.none => Except.error MlErr.unsupportedFlavor) = _
    rw [hf]
  refine ⟨⟨S, fn⟩, hload, rfl, ?_, ?_, ?_⟩
  · rw [predict]
    have : conforms S.inputs badMissing = false :=
      conforms_false_of_missing_required S.inputs badMissing hmiss
    simp [this]
  · rw [predict]
    have : conforms S.inputs badTyped = false :=
      conforms_false_of_bad_type S.inputs badTyped htyped
    simp [this]
  · rw [predict]
    simp [hgood]

/-- Witness for C7 at a concrete signature (required long field `x`, a
double-typed input for it is not widenable): missing field and string-typed
field both fail, a long value succeeds. -/
theorem save_load_signature_roundtrip_witness :
    ∃ lm, loadModel
        (saveModel [] "models/m" ["python_function"]
          ⟨[⟨"x", DType.long, true⟩], []⟩ (some "run1"))
        "models/m" [("python_function", fun _ => ScalarValue.vLong 0)] =
        Except.ok lm ∧
      lm.signature = ⟨[⟨"x", DType.long, true⟩], []⟩ ∧
      predict lm [[("y", ScalarValue.vLong 1)]] =
        Except.error MlErr.signatureMismatch ∧
      predict lm [[("x", ScalarValue.vStr "a")]] =
        Except.error MlErr.signatureMismatch ∧
      predict lm [[("x", ScalarValue.vLong 1)]] =
        Except.ok [lm.rowFn [("x", ScalarValue.vLong 1)]] :=
  save_load_signature_roundtrip [] "models/m" ["python_function"]
    ⟨[⟨"x", DType.long, true⟩], []⟩ (some "run1")
    [("python_function", fun _ => ScalarValue.vLong 0)]
    (fun _ => ScalarValue.vLong 0) rfl
    [("y", ScalarValue.vLong 1)] [("x", ScalarValue.vStr "a")]
    [("x", ScalarValue.vLong 1)]
    (by refine ⟨⟨"x", DType.long, true⟩, by simp, rfl, rfl⟩)
    (by refine ⟨⟨"x", DType.long, true⟩, by simp, ScalarValue.vStr "a", rfl, rfl⟩)
    rfl

/-- **C10.** For every loaded pyfunc model and non-empty list of conforming
structured input records, `predict` succeeds and returns one output per
record, the `i`-th output being the model's result on the `i`-th input. -/
theorem predict_batch_pointwise (lm : LoadedModel) (rs : List Record)
    (_hne : rs ≠ [])
    (hok : rs.all (fun rec => conforms lm.signature.inputs rec) = true) :
    ∃ outs, predict lm rs = Except.ok outs ∧
      outs.length = rs.length ∧
      ∀ (i : Nat) (h1 : i < outs.length) (h2 : i < rs.length),
        outs.get ⟨i, h1⟩ = lm.rowFn (rs.get ⟨i, h2⟩) := by
  refine ⟨rs.map lm.rowFn, ?_, List.length_map _ _, ?_⟩
  · rw [predict, hok]
    simp
  · intro i h1 h2
    rw [List.get_map]

/-- Witness for C10: a two-record batch against a concrete model yields two
outputs, each the model's result on its record. -/
theorem predict_batch_pointwise_witness :
    ∃ outs, predict ⟨⟨[⟨"x", DType.long, true⟩], []⟩,
        fun _ => ScalarValue.vBool true⟩
        [[("x", ScalarValue.vLong 1)], [("x", ScalarValue.vLong 2)]] =
        Except.ok outs ∧
      outs.length =
        ([[("x", ScalarValue.vLong 1)], [("x", ScalarValue.vLong 2)]] :
          List Record).length ∧
      ∀ (i : Nat) (h1 : i < outs.length)
        (h2 : i < ([[("x", ScalarValue.vLong 1)],
          [("x", ScalarValue.vLong 2)]] : List Record).length),
        outs.get ⟨i, h1⟩ =
          (fun _ => ScalarValue.vBool true)
            (([[("x", ScalarValue.vLong 1)],
              [("x", ScalarValue.vLong 2)]] : List Record).get ⟨i, h2⟩) :=
  predict_batch_pointwise
    ⟨⟨[⟨"x", DType.long, true⟩], []⟩, fun _ => ScalarValue.vBool true⟩
    [[("x", ScalarValue.vLong 1)], [("x", ScalarValue.vLong 2)]]
    (by decide) (by decide)

end Mlflow
